import Mathlib

/-!
# JOSE toolkit: Signer / Verifier services, RSA PEM parsing, symmetric key generation

A shallow embedding of the Go sources

* `jws/services/verifier.go`  (`NewVerifier`, `Verifier.Verify`, `Verifier.VerifyScopes`)
* `jws/services/signer.go`    (`NewSigner`, `Signer.Create`)
* `jws/rsa_utils.go`          (`rsaParsers`, `ParseRSAFromPEM`)
* `jwk/keygen/oct.go`         (`newSymKey`)

Go's `(value, error)` results are `Except JoseError value`.  Calls into packages
whose code is not part of the embedded sources (the `jws` codec, `crypto/x509`,
`encoding/pem`, `crypto/rand`, the key store) and the allocation limit of the runtime
are parameters of the embedded functions.  `time.Time` and `time.Duration` are integers (nanoseconds).
-/

set_option autoImplicit false
set_option linter.unusedVariables false

namespace Jose

/-! ## Data model -/

/-- One octet. -/
abbrev Byte := Fin 256

/-- Go `[]byte`. -/
abbrev Bytes := List Byte

/-- Go `time.Time`, as nanoseconds on an unbounded time line. -/
abbrev Time := Int

/-- Go `time.Duration`, in nanoseconds. -/
abbrev Duration := Int

/-- Parsed key material: the `interface{}` value that the key parsers return and the
signing and verification operations consume. -/
structure RawKey where
  material : List Nat
  deriving DecidableEq, Repr

/-- The error values that occur in the embedded sources.  `external` stands for an error
produced by a collaborator (key store, key parser, codec) and passed on as it is;
`errorsNew` is Go's `errors.New`.  The last three are among the error kinds that section 7 of
the specification gives for the codec and the claims validator. -/
inductive JoseError where
  | ErrInvalidKeyID (id : String)
  | ErrUnexpectedAlg (alg : String)
  | ErrInvalidToken
  | ErrKeyMustBePEMEncoded
  | ErrParsingFromPEM
  | TooSmallKeySize (minimum : Int) (size : Int)
  | ErrorGeneratingKey (msg : String)
  | errorsNew (msg : String)
  | external (msg : String)
  | MalformedToken
  | SignatureInvalid
  | UnknownAlgorithm (alg : String)
  deriving DecidableEq, Repr

/-- Equality of Go results is decidable when it is for errors and values. -/
instance instDecidableEqExcept {ε α : Type} [DecidableEq ε] [DecidableEq α] :
    DecidableEq (Except ε α)
  | .ok a, .ok b =>
    if h : a = b then isTrue (by rw [h]) else isFalse (fun h' => h (Except.ok.inj h'))
  | .error a, .error b =>
    if h : a = b then isTrue (by rw [h]) else isFalse (fun h' => h (Except.error.inj h'))
  | .ok _, .error _ => isFalse (fun h => by cases h)
  | .error _, .ok _ => isFalse (fun h => by cases h)

/-- A JWK (`jwk.Key`): the fields the services read, and the stored encoding of the key. -/
structure Key where
  ID : String
  Algorithm : String
  encoded : Bytes
  deriving DecidableEq, Repr

/-- A JWK set (`jwk.Set`). -/
structure KeySet where
  Keys : List Key
  deriving DecidableEq, Repr

/-- The error a key-set provider returns (`jerr.Type`, written `Typ`, and `jerr.Message`). -/
structure SetError where
  Typ : String
  Message : String
  deriving DecidableEq, Repr

/-- A cache entry `Cache{JWK, RawKey}`. -/
structure Cache where
  JWK : Key
  RawKey : RawKey
  deriving DecidableEq, Repr

/-- The token header (`jws.RegisteredHeader`; the getters of `jwt.TokenHeader` read
these four fields; `Type` is written `Typ`). -/
structure Header where
  ID : String
  Typ : String
  Algorithm : String
  JWKSetURL : String
  deriving DecidableEq, Repr

def Header.GetID (h : Header) : String := h.ID

def Header.GetType (h : Header) : String := h.Typ

def Header.GetAlgorithm (h : Header) : String := h.Algorithm

def Header.GetJWKSetURL (h : Header) : String := h.JWKSetURL

/-- The nested user object of the claims payload. -/
structure UserClaims where
  Name : String
  Email : String
  Country : String
  deriving DecidableEq, Repr

/-- The claims payload: the registered claims that `ClaimsSecure` gets and sets, and the
application fields of the payload used by the services (`Scopes`, `User`).  A Go slice
that may be `nil` is an `Option`. -/
structure Claims where
  Issuer : String
  Subject : String
  Audience : String
  ExpireAt : Time
  NotBefore : Time
  IssuedAt : Time
  Scopes : Option (List String)
  User : Option UserClaims
  deriving DecidableEq, Repr

def Claims.GetAudience (c : Claims) : String := c.Audience

def Claims.GetExpireAt (c : Claims) : Time := c.ExpireAt

def Claims.GetIssuedAt (c : Claims) : Time := c.IssuedAt

def Claims.GetIssuer (c : Claims) : String := c.Issuer

def Claims.GetNotBefore (c : Claims) : Time := c.NotBefore

def Claims.GetSubject (c : Claims) : String := c.Subject

def Claims.GetScopes (c : Claims) : Option (List String) := c.Scopes

/-- Modelled from the spec: the setters of `ClaimsSecure` are declared in
`claims_secure.go` but their bodies belong to the payload type, which is not among the
sources; per the data model ("stamping iat/nbf/exp/iss") each one stores its argument in
the field it names and leaves the others alone. -/
def Claims.SetExpireAt (c : Claims) (t : Time) : Claims := { c with ExpireAt := t }

/-- Modelled from the spec: see `Claims.SetExpireAt`. -/
def Claims.SetIssuedAt (c : Claims) (t : Time) : Claims := { c with IssuedAt := t }

/-- Modelled from the spec: see `Claims.SetExpireAt`. -/
def Claims.SetIssuer (c : Claims) (iss : String) : Claims := { c with Issuer := iss }

/-- Modelled from the spec: see `Claims.SetExpireAt`. -/
def Claims.SetNotBefore (c : Claims) (t : Time) : Claims := { c with NotBefore := t }

/-- A signed token (`jws.SignedToken`). -/
structure SignedToken where
  Header : Header
  Payload : Claims
  Signature : Bytes
  deriving DecidableEq, Repr

/-- The key resolver callback type `func(jws.Header) (interface{}, error)`. -/
abbrev KeyResolver := Header → Except JoseError RawKey

/-- The part of package `jws` (and of the token type) that the services call and that
is not among the embedded sources: the header type constant, `EncodeAndSign`,
`DecodeAndValidate` (with its two prototype arguments, which `Verify` passes as `nil`)
and `SignedToken.Validate`, which reads the clock. -/
structure Jws where
  JWTHeaderType : String
  EncodeAndSign : SignedToken → RawKey → Except JoseError String
  DecodeAndValidate :
    String → Option Header → Option Claims → KeyResolver → Except JoseError SignedToken
  Validate : Time → SignedToken → Bool

/-! ## Go maps with string keys -/

/-- A Go `map[string]*Cache`, as an association list with at most one entry per key. -/
abbrev KeyMap := List (String × Cache)

/-- The statement `m[k] = v`. -/
def KeyMap.set (m : KeyMap) (k : String) (v : Cache) : KeyMap :=
  (k, v) :: m.filter (fun e => e.1 != k)

/-- The expression `v, ok = m[k]`. -/
def KeyMap.get (m : KeyMap) (k : String) : Option Cache :=
  match m with
  | [] => none
  | e :: rest => if e.1 = k then some e.2 else KeyMap.get rest k

/-- The identifiers that have an entry in the map. -/
def KeyMap.ids (m : KeyMap) : List String := m.map (fun e => e.1)

/-! ## `jws/services/verifier.go` -/

/-- A Verifier: expected issuer and the identifier-to-key cache. -/
structure Verifier where
  issuer : String
  keys : KeyMap
  deriving DecidableEq, Repr

/-- The loop `for _, k := range jwkset.Keys` of `NewVerifier`: parse each key, store it
under its identifier, and leave at the first parse error. -/
def NewVerifier.loop (keyOf : Key → Except JoseError RawKey) :
    List Key → Verifier → Except JoseError Verifier
  | [], result => .ok result
  | k :: rest, result =>
    match keyOf k with
    | .error err => .error err
    | .ok rawKey =>
      NewVerifier.loop keyOf rest { result with keys := result.keys.set k.ID ⟨k, rawKey⟩ }

/-- The function `NewVerifier(svcJWKSet, issuer)`.  `getCerts` is the outcome of
`svcJWKSet.GetCerts()` and `keyOf` is the method `k.Key()`. -/
def NewVerifier (keyOf : Key → Except JoseError RawKey)
    (getCerts : Except SetError KeySet) (issuer : String) : Except JoseError Verifier :=
  match getCerts with
  | .error jerr => .error (.errorsNew (jerr.Typ ++ ": " ++ jerr.Message))
  | .ok jwkset => NewVerifier.loop keyOf jwkset.Keys ⟨issuer, []⟩

/-- The closure that `Verify` passes to `jws.DecodeAndValidate`. -/
def Verifier.keyResolver (v : Verifier) : KeyResolver := fun header =>
  match v.keys.get header.GetID with
  | none => .error (.ErrInvalidKeyID header.GetID)
  | some key =>
    if header.GetAlgorithm != key.JWK.Algorithm then
      .error (.ErrUnexpectedAlg header.GetAlgorithm)
    else
      .ok key.RawKey

/-- The method `(v *Verifier) Verify(rawtoken)`, with the clock reading `now` that
`token.Validate()` takes. -/
def Verifier.Verify (jws : Jws) (now : Time) (v : Verifier) (rawtoken : String) :
    Except JoseError SignedToken :=
  match jws.DecodeAndValidate rawtoken none none v.keyResolver with
  | .error err => .error err
  | .ok token =>
    if !(jws.Validate now token) || token.Payload.GetIssuer != v.issuer then
      .error .ErrInvalidToken
    else
      .ok token

/-- A Go `[]string` that may be `nil`. -/
abbrev GoStrings := Option (List String)

/-- The length `len(s)` of a Go slice; `nil` has length 0. -/
def GoStrings.len : GoStrings → Nat
  | none => 0
  | some l => l.length

/-- The elements of a Go slice; `nil` has none. -/
def GoStrings.elems : GoStrings → List String
  | none => []
  | some l => l

/-- The interface `jwt.ClientUserScopes`, as what its two getters return. -/
structure ClientUserScopes where
  GetScopes : GoStrings
  GetUserScopes : GoStrings
  deriving DecidableEq, Repr

/-- The method `ExistsAny` of `dot.StringSlice` (library `gopkg.in/raiqub/dot.v1`): the
receiver, the strings looked for, and the flag the call sites pass as `false`. -/
abbrev ExistsAnyFn := List String → List String → Bool → Bool

/-- The method `(v *Verifier) VerifyScopes(claims, client, user)`. -/
def Verifier.VerifyScopes (existsAny : ExistsAnyFn) (v : Verifier) (claims : ClientUserScopes)
    (client user : GoStrings) : Bool :=
  let userBlock : Bool :=
    if user.isSome && decide (user.len > 0) then
      let scopes := claims.GetUserScopes
      if scopes.isNone || decide (scopes.len = 0) then false
      else if !(existsAny scopes.elems user.elems false) then false
      else true
    else true
  if client.isSome && decide (client.len > 0) then
    let scopes := claims.GetScopes
    if scopes.isNone || decide (scopes.len = 0) then false
    else if !(existsAny scopes.elems client.elems false) then false
    else userBlock
  else userBlock

/-- The method `Verify` as a step on the service: its pointer receiver as the call
leaves it, and the returned `(*jws.SignedToken, error)`.  The body and the closure read
`v.keys` and `v.issuer` and assign to neither. -/
def Verifier.VerifyStep (jws : Jws) (now : Time) (v : Verifier) (rawtoken : String) :
    Verifier × Except JoseError SignedToken :=
  match jws.DecodeAndValidate rawtoken none none v.keyResolver with
  | .error err => (v, .error err)
  | .ok token =>
    if !(jws.Validate now token) || token.Payload.GetIssuer != v.issuer then
      (v, .error .ErrInvalidToken)
    else
      (v, .ok token)

/-! ## `jws/services/signer.go` -/

/-- The Signer configuration (`Config`): the fields `NewSigner` and `Create` read. -/
structure Config where
  Issuer : String
  SetURL : String
  SignKeyID : String
  Duration : Duration
  deriving DecidableEq, Repr

/-- The key store a Signer reads its key from (`data.Signer`). -/
structure DataSigner where
  GetKey : String → Except JoseError Key

/-- A Signer: the store, the configuration and the cached key. -/
structure Signer where
  dtAdapter : DataSigner
  config : Config
  keyCache : Cache

/-- The function `NewSigner(config, dt)`; `keyOf` is the method `dbKey.Key()`. -/
def NewSigner (keyOf : Key → Except JoseError RawKey) (config : Config) (dt : DataSigner) :
    Except JoseError Signer :=
  match dt.GetKey config.SignKeyID with
  | .error err => .error err
  | .ok dbKey =>
    match keyOf dbKey with
    | .error err => .error err
    | .ok rawKey => .ok ⟨dt, config, ⟨dbKey, rawKey⟩⟩

/-- The payload after the four setter calls at the head of `Create`. -/
def Signer.stamp (s : Signer) (now : Time) (payload : Claims) : Claims :=
  (((payload.SetIssuer s.config.Issuer).SetExpireAt (now + s.config.Duration)).SetNotBefore
    now).SetIssuedAt now

/-- The header literal that `Create` builds. -/
def Signer.header (jws : Jws) (s : Signer) : Header :=
  { ID := s.config.SignKeyID
    Typ := jws.JWTHeaderType
    Algorithm := s.keyCache.JWK.Algorithm
    JWKSetURL := s.config.SetURL }

/-- The token literal `jws.SignedToken{Header: header, Payload: payload}` of `Create`;
the signature has its zero value. -/
def Signer.token (jws : Jws) (s : Signer) (now : Time) (payload : Claims) : SignedToken :=
  { Header := s.header jws
    Payload := s.stamp now payload
    Signature := [] }

/-- The method `(s *Signer) Create(payload)`, with `now` the value of `time.Now()`.  The first
component is the payload as the call leaves it (it is passed by reference), the second
the returned `(string, error)`. -/
def Signer.Create (jws : Jws) (now : Time) (s : Signer) (payload : Claims) :
    Claims × Except JoseError String :=
  let token := s.token jws now payload
  match jws.EncodeAndSign token s.keyCache.RawKey with
  | .error err => (token.Payload, .error err)
  | .ok out => (token.Payload, .ok out)

/-- The memory a call of `Create` works on: its pointer receiver and the payload it is
handed by reference. -/
structure CreateState where
  signer : Signer
  payload : Claims

/-- The method `Create` as a step on that memory, statement by statement: the four
setter calls write the payload, the header and the token are local values, and nothing
is assigned through the receiver. -/
def Signer.CreateStep (jws : Jws) (now : Time) (σ : CreateState) :
    CreateState × Except JoseError String :=
  let σ1 : CreateState := { σ with payload := σ.payload.SetIssuer σ.signer.config.Issuer }
  let σ2 : CreateState :=
    { σ1 with payload := σ1.payload.SetExpireAt (now + σ1.signer.config.Duration) }
  let σ3 : CreateState := { σ2 with payload := σ2.payload.SetNotBefore now }
  let σ4 : CreateState := { σ3 with payload := σ3.payload.SetIssuedAt now }
  let header : Header :=
    { ID := σ4.signer.config.SignKeyID
      Typ := jws.JWTHeaderType
      Algorithm := σ4.signer.keyCache.JWK.Algorithm
      JWKSetURL := σ4.signer.config.SetURL }
  let token : SignedToken := { Header := header, Payload := σ4.payload, Signature := [] }
  match jws.EncodeAndSign token σ4.signer.keyCache.RawKey with
  | .error err => (σ4, .error err)
  | .ok out => (σ4, .ok out)

/-! ## `jws/rsa_utils.go` -/

/-- The fields of an `x509.Certificate` that matter here. -/
structure Certificate where
  Raw : Bytes
  PublicKey : RawKey
  deriving DecidableEq, Repr

/-- A decoded PEM block (`pem.Block`). -/
structure PemBlock where
  Typ : String
  Bytes : Bytes
  deriving DecidableEq, Repr

/-- The four functions of package `crypto/x509` that `rsaParsers` calls.  A Go `error`
of the library is its message. -/
structure X509 where
  ParsePKCS1PrivateKey : Bytes → Except String RawKey
  ParsePKCS8PrivateKey : Bytes → Except String RawKey
  ParsePKIXPublicKey : Bytes → Except String RawKey
  ParseCertificate : Bytes → Except String Certificate

/-- The table `rsaParsers`. -/
def rsaParsers (x509 : X509) : List (Bytes → Except String RawKey) :=
  [ fun key => x509.ParsePKCS1PrivateKey key,
    fun key => x509.ParsePKCS8PrivateKey key,
    fun key => x509.ParsePKIXPublicKey key,
    fun key =>
      match x509.ParseCertificate key with
      | .error err => .error err
      | .ok cert => .ok cert.PublicKey ]

/-- What a run of `ParseRSAFromPEM` did: `applied` is the number of entries of
`rsaParsers` that were called, `result` the returned `(interface{}, error)`. -/
structure ParseRun where
  applied : Nat
  result : Except JoseError RawKey
  deriving DecidableEq, Repr

/-- The loop `for _, v := range rsaParsers` of `ParseRSAFromPEM`, entered after
`applied` calls. -/
def ParseRSAFromPEM.loop (bytes : Bytes) :
    List (Bytes → Except String RawKey) → Nat → ParseRun
  | [], applied => ⟨applied, .error .ErrParsingFromPEM⟩
  | v :: rest, applied =>
    match v bytes with
    | .ok parsedKey => ⟨applied + 1, .ok parsedKey⟩
    | .error _ => ParseRSAFromPEM.loop bytes rest (applied + 1)

/-- The function `ParseRSAFromPEM(key)`; `pemDecode` is `pem.Decode`, which returns the first block
found (if any) and the rest of the input. -/
def ParseRSAFromPEM (x509 : X509) (pemDecode : Bytes → Option PemBlock × Bytes)
    (key : Bytes) : ParseRun :=
  match (pemDecode key).1 with
  | none => ⟨0, .error .ErrKeyMustBePEMEncoded⟩
  | some block => ParseRSAFromPEM.loop block.Bytes (rsaParsers x509) 0

/-! ## `jwk/keygen/oct.go` -/

/-- The constant `MinimumOCTKeySize`. -/
def MinimumOCTKeySize : Int := 512

/-- The reader `crypto/rand`: asked to fill a buffer of `n` bytes it fails with a message
or delivers the byte for each position. -/
structure RandReader where
  Read : Nat → Except String (Nat → Byte)

/-- A buffer after every cell has been overwritten from `src`. -/
def fillBuffer (buf : Bytes) (src : Nat → Byte) : Bytes :=
  (List.range buf.length).map src

/-- What a Go call does: it returns its results, or it panics and returns nothing. -/
inductive GoRun (α : Type) where
  | returned (a : α)
  | panicked (msg : String)
  deriving DecidableEq, Repr

/-- The expression `make([]byte, n)`: a buffer of `n` zero bytes, or no buffer when the
runtime's `makeslice` panics, which it does when `n` is negative or more than `maxAlloc`,
the largest size the runtime allocates (at most 2^48 bytes on 64-bit Linux). -/
def makeBytes (maxAlloc : Nat) (n : Int) : Option Bytes :=
  if n < 0 ∨ (maxAlloc : Int) < n then none else some (List.replicate n.toNat 0)

/-- The function `newSymKey(alg, size)`.  The argument `size` is a Go `int` (64 bits);
the comparison and the division do not overflow, and `size/8` truncates toward zero.
The allocation of the buffer panics beyond the allocation limit `maxAlloc`. -/
def newSymKey (maxAlloc : Nat) (rand : RandReader) (alg : String) (size : Int) :
    GoRun (Except JoseError Bytes) :=
  if size < MinimumOCTKeySize then
    .returned (.error (.TooSmallKeySize MinimumOCTKeySize size))
  else
    match makeBytes maxAlloc (Int.tdiv size 8) with
    | none => .panicked "makeslice: len out of range"
    | some buf =>
      match rand.Read buf.length with
      | .error msg => .returned (.error (.ErrorGeneratingKey msg))
      | .ok src => .returned (.ok (fillBuffer buf src))

/-! ## The compact-serialization codec and the claims validator

The bodies of `EncodeAndSign`, `DecodeAndValidate` and `Validate` are not among the
embedded sources.  This section writes them down from sections 4.4 and 4.5 of the
specification, over the primitives they use: the algorithm registry, the JSON
serialization of header and claims, and base64url without padding. -/

/-- Modelled from the spec: an entry of the Algorithm Registry (sections 3 and 4.1),
whose code is not among the sources: a sign operation and a verify operation over the
signing input and a key. -/
structure Algorithm where
  Sign : List Char → RawKey → Except JoseError Bytes
  Verify : List Char → Bytes → RawKey → Bool

/-- Modelled from the spec: the primitives that the codec of section 4.4 is built from,
none of which is among the sources: `resolve` of the registry (4.1), the JSON
serialization of header and claims and its inverse, base64url encoding without padding
and its inverse, and the header type constant. -/
structure CodecEnv where
  JWTHeaderType : String
  resolve : String → Option Algorithm
  marshalHeader : Header → Bytes
  unmarshalHeader : Bytes → Option Header
  marshalClaims : Claims → Bytes
  unmarshalClaims : Bytes → Option Claims
  base64Encode : Bytes → List Char
  base64Decode : List Char → Option Bytes

/-- Modelled from the spec: "Split on `.`" (4.4, Decode+Verify, step 1); the splitting
function is not among the sources.  The segments between the dots, in order. -/
def splitOnDot : List Char → List (List Char)
  | [] => [[]]
  | c :: cs =>
    if c = '.' then [] :: splitOnDot cs
    else
      match splitOnDot cs with
      | [] => [[c]]
      | seg :: segs => (c :: seg) :: segs

/-- Modelled from the spec: Encode+Sign of section 4.4 (`EncodeAndSign` is not among the
sources).  Serialize and encode header and claims, join them with a dot into the
signing input, sign it with the algorithm the header names, and append the encoded
signature after another dot. -/
def specEncodeAndSign (env : CodecEnv) (token : SignedToken) (signingKey : RawKey) :
    Except JoseError String :=
  let encodedHeader := env.base64Encode (env.marshalHeader token.Header)
  let encodedClaims := env.base64Encode (env.marshalClaims token.Payload)
  let signingInput := encodedHeader ++ '.' :: encodedClaims
  match env.resolve token.Header.Algorithm with
  | none => .error (.UnknownAlgorithm token.Header.Algorithm)
  | some alg =>
    match alg.Sign signingInput signingKey with
    | .error err => .error err
    | .ok signature => .ok (String.mk (signingInput ++ '.' :: env.base64Encode signature))

/-- Modelled from the spec: Decode+Verify of section 4.4 (`DecodeAndValidate` is not
among the sources).  Exactly three segments, else `MalformedToken`; decode and parse the
first two, else `MalformedToken`; ask the resolver for the key and pass its failure on;
verify the signature over the first two segments with the algorithm the header names,
else `SignatureInvalid`.  The two prototype arguments are not read. -/
def specDecodeAndValidate (env : CodecEnv) (compact : String) (hdr : Option Header)
    (pld : Option Claims) (keyResolver : KeyResolver) : Except JoseError SignedToken :=
  match splitOnDot compact.data with
  | [segment1, segment2, segment3] =>
    match (env.base64Decode segment1).bind env.unmarshalHeader,
          (env.base64Decode segment2).bind env.unmarshalClaims with
    | some header, some claims =>
      match keyResolver header with
      | .error err => .error err
      | .ok key =>
        match env.resolve header.Algorithm with
        | none => .error (.UnknownAlgorithm header.Algorithm)
        | some alg =>
          match env.base64Decode segment3 with
          | none => .error .MalformedToken
          | some signature =>
            if alg.Verify (segment1 ++ '.' :: segment2) signature key then
              .ok ⟨header, claims, signature⟩
            else
              .error .SignatureInvalid
    | _, _ => .error .MalformedToken
  | _ => .error .MalformedToken

/-- Modelled from the spec: the temporal checks of the Claims Validator (4.5), which is
what `token.Validate()` runs (its body is not among the sources): the token fails if
`now > exp` or `now < nbf`.  The issuer check of 4.5 is made by `Verify` itself. -/
def specValidate (now : Time) (token : SignedToken) : Bool :=
  !(decide (now > token.Payload.GetExpireAt)) && !(decide (now < token.Payload.GetNotBefore))

/-- Modelled from the spec: package `jws` as sections 4.4 and 4.5 describe it. -/
def specJws (env : CodecEnv) : Jws where
  JWTHeaderType := env.JWTHeaderType
  EncodeAndSign := specEncodeAndSign env
  DecodeAndValidate := specDecodeAndValidate env
  Validate := specValidate

/-- Modelled from the spec: what the codec's primitives owe each other.  Header and
claims survive serialization ("yields Claims equal to the input", section 8), base64url
decoding inverts encoding, and the base64url alphabet has no dot (section 6: `.` is the
segment separator). -/
def CodecEnv.Sound (env : CodecEnv) : Prop :=
  (∀ h, env.unmarshalHeader (env.marshalHeader h) = some h) ∧
  (∀ c, env.unmarshalClaims (env.marshalClaims c) = some c) ∧
  (∀ bs, env.base64Decode (env.base64Encode bs) = some bs) ∧
  (∀ bs, '.' ∉ env.base64Encode bs)

/-- Modelled from the spec: a key generated for an algorithm (the key generator is not
among the sources): the algorithm signs every input with the key's material, and
verifies with it what it has signed (section 8, round trip). -/
def Algorithm.Fits (alg : Algorithm) (raw : RawKey) : Prop :=
  ∀ m, ∃ sig, alg.Sign m raw = .ok sig ∧ alg.Verify m sig raw = true

/-! ## Concrete inputs used by the examples below -/

/-- A codec stand-in whose `EncodeAndSign` answers with the key identifier of the header
it is given, so that the header `Create` signs can be read off the result. -/
def probeJws : Jws where
  JWTHeaderType := "JWT"
  EncodeAndSign := fun token _ => .ok token.Header.GetID
  DecodeAndValidate := fun _ _ _ _ => .error .MalformedToken
  Validate := fun _ _ => true

/-- A key parser that accepts every key and takes its bytes as the material. -/
def acceptingKeyOf : Key → Except JoseError RawKey :=
  fun k => .ok ⟨k.encoded.map (fun b => b.val)⟩

/-- A store that keeps a single key, whose `ID` field is `"b"`, and hands it out for the
name `"a"`. -/
def aliasStore : DataSigner where
  GetKey := fun id =>
    if id = "a" then .ok ⟨"b", "RS256", [1, 2, 3]⟩ else .error (.external "not found")

/-- A store that hands out, for every name, a key bearing that name. -/
def echoStore : DataSigner where
  GetKey := fun id => .ok ⟨id, "RS256", []⟩

/-- A configuration that asks for the signing key `"a"`. -/
def aliasConfig : Config :=
  { Issuer := "auth.example.com", SetURL := "http://localhost/certs", SignKeyID := "a",
    Duration := 10000000000 }

/-- An `x509` stand-in that reads the first byte of the block as the tag of its
encoding: 1 for PKCS#1, 8 for PKCS#8, 9 for PKIX, 5 for a certificate. -/
def tagX509 : X509 where
  ParsePKCS1PrivateKey := fun b =>
    if b.head? = some 1 then .ok ⟨[1]⟩ else .error "x509: failed to parse private key"
  ParsePKCS8PrivateKey := fun b =>
    if b.head? = some 8 then .ok ⟨[8]⟩ else .error "x509: failed to parse private key"
  ParsePKIXPublicKey := fun b =>
    if b.head? = some 9 then .ok ⟨[9]⟩ else .error "x509: failed to parse public key"
  ParseCertificate := fun b =>
    if b.head? = some 5 then .ok ⟨b, ⟨[5]⟩⟩ else .error "x509: malformed certificate"

/-- A `pem.Decode` stand-in: a block is found exactly when the input starts with the
byte of `-`, and its contents are the bytes that follow. -/
def dashPemDecode : Bytes → Option PemBlock × Bytes
  | [] => (none, [])
  | b :: rest => if b = 45 then (some ⟨"KEY", rest⟩, []) else (none, b :: rest)

/-- The bytes of the text `All your base are belong to key`. -/
def badKey : Bytes :=
  [65, 108, 108, 32, 121, 111, 117, 114, 32, 98, 97, 115, 101, 32, 97, 114, 101, 32, 98,
   101, 108, 111, 110, 103, 32, 116, 111, 32, 107, 101, 121]

/-- The allocation limit of the Go runtime on 64-bit Linux, `maxAlloc = 1 << 48`. -/
def maxAlloc64 : Nat := 2 ^ 48

/-- The largest Go `int` on a 64-bit platform, `math.MaxInt64`. -/
def maxInt64 : Int := 9223372036854775807

/-- A random source that always delivers, here the byte `i mod 256` at position `i`. -/
def countingRand : RandReader where
  Read := fun _ => .ok (fun i => Fin.ofNat i)

/-- A random source that is exhausted. -/
def failingRand : RandReader where
  Read := fun _ => .error "unexpected EOF"

/-- Strings can be numbered: a string is the list of the codes of its characters. -/
instance instEncodableString : Encodable String :=
  Encodable.ofLeftInverse (fun s => s.data.map Char.toNat)
    (fun l => String.mk (l.map Char.ofNat))
    (fun s => by
      have h : (fun c : Char => Char.ofNat c.toNat) = id := funext Char.ofNat_toNat
      simp [List.map_map, Function.comp_def, h])

/-- Headers can be numbered. -/
instance instEncodableHeader : Encodable Header :=
  Encodable.ofLeftInverse (fun h => (h.ID, h.Typ, h.Algorithm, h.JWKSetURL))
    (fun t => ⟨t.1, t.2.1, t.2.2.1, t.2.2.2⟩) (fun _ => rfl)

/-- User objects can be numbered. -/
instance instEncodableUserClaims : Encodable UserClaims :=
  Encodable.ofLeftInverse (fun u => (u.Name, u.Email, u.Country))
    (fun t => ⟨t.1, t.2.1, t.2.2⟩) (fun _ => rfl)

/-- Claims can be numbered. -/
instance instEncodableClaims : Encodable Claims :=
  Encodable.ofLeftInverse
    (fun c => (c.Issuer, c.Subject, c.Audience, c.ExpireAt, c.NotBefore, c.IssuedAt,
      c.Scopes, c.User))
    (fun t => ⟨t.1, t.2.1, t.2.2.1, t.2.2.2.1, t.2.2.2.2.1, t.2.2.2.2.2.1, t.2.2.2.2.2.2.1,
      t.2.2.2.2.2.2.2⟩)
    (fun _ => rfl)

/-- A keyed tag in place of a signature: the codes of the input followed by the key
material, byte by byte. -/
def tagOf (m : List Char) (raw : RawKey) : Bytes :=
  m.map (fun c => Fin.ofNat c.toNat) ++ raw.material.map (fun n => Fin.ofNat n)

/-- An algorithm that signs with `tagOf` and verifies by recomputing the tag. -/
def tagAlgorithm : Algorithm where
  Sign := fun m raw => .ok (tagOf m raw)
  Verify := fun m sig raw => decide (sig = tagOf m raw)

/-- A codec environment in which a value is serialized as a run of as many zero bytes
as its number says, and bytes are encoded as a run of as many letters `A` as their
number says; the registry knows the algorithm `HS256`. -/
def unaryEnv : CodecEnv where
  JWTHeaderType := "JWT"
  resolve := fun a => if a = "HS256" then some tagAlgorithm else none
  marshalHeader := fun h => List.replicate (Encodable.encode h) 0
  unmarshalHeader := fun bs => Encodable.decode bs.length
  marshalClaims := fun c => List.replicate (Encodable.encode c) 0
  unmarshalClaims := fun bs => Encodable.decode bs.length
  base64Encode := fun bs => List.replicate (Encodable.encode bs) 'A'
  base64Decode := fun cs => Encodable.decode cs.length

/-- A symmetric key for `HS256` with the identifier `"k1"`. -/
def sampleKey : Key := ⟨"k1", "HS256", [7, 7, 7]⟩

/-- A store that holds `sampleKey` under its identifier. -/
def sampleStore : DataSigner where
  GetKey := fun id => if id = "k1" then .ok sampleKey else .error (.external "not found")

/-- A configuration that signs with `sampleKey` for ten seconds. -/
def sampleConfig : Config :=
  { Issuer := "auth.example.com", SetURL := "http://localhost/certs", SignKeyID := "k1",
    Duration := 10000000000 }

/-- The Signer that `NewSigner` builds over `echoStore` for `aliasConfig`. -/
def echoSigner : Signer := ⟨echoStore, aliasConfig, ⟨⟨"a", "RS256", []⟩, ⟨[]⟩⟩⟩

/-- A payload in the shape of the test suite's `createJWTPayload`. -/
def samplePayload : Claims :=
  { Issuer := "", Subject := "gG26se5wyWDOEjaNHwlXm2i9G3mnYGbG62BBq3ZE",
    Audience := "testing", ExpireAt := 0, NotBefore := 0, IssuedAt := 0,
    Scopes := some ["owner", "vehicle", "freight"],
    User := some ⟨"John Doe", "john.doe@example.com", "USA"⟩ }

/-- The method `ExistsAny` of `dot.StringSlice` for the flag `false`, comparing strings
as they are: some string looked for is an element of the receiver.  With the flag `true`
the comparison is made on lower-cased strings. -/
def sliceExistsAny : ExistsAnyFn := fun s str ignoreCase =>
  str.any (fun x =>
    s.any (fun y => if ignoreCase then decide (x.toLower = y.toLower) else decide (x = y)))

/-- Claims with the scopes `owner` and `vehicle` and no user scopes. -/
def ownerVehicle : ClientUserScopes := ⟨some ["owner", "vehicle"], none⟩

/-- A Verifier with one cached key. -/
def sampleVerifier : Verifier :=
  ⟨"auth.example.com", [("k1", ⟨⟨"k1", "HS256", [7, 7, 7]⟩, ⟨[7, 7, 7]⟩⟩)]⟩

/-! ## Theorems -/

/-- C2: the key resolver that `Verify` hands to the codec fails with `ErrInvalidKeyID` of
the header's identifier when the cache has no entry for it, otherwise with
`ErrUnexpectedAlg` of the header's algorithm when that differs from the cached key's
algorithm, and otherwise returns the cached raw key; it returns a key only if the two
algorithms agree. -/
theorem keyResolver_spec (v : Verifier) (h : Header) :
    (v.keys.get h.GetID = none →
      v.keyResolver h = .error (.ErrInvalidKeyID h.GetID)) ∧
    (∀ key, v.keys.get h.GetID = some key → h.GetAlgorithm ≠ key.JWK.Algorithm →
      v.keyResolver h = .error (.ErrUnexpectedAlg h.GetAlgorithm)) ∧
    (∀ key, v.keys.get h.GetID = some key → h.GetAlgorithm = key.JWK.Algorithm →
      v.keyResolver h = .ok key.RawKey) ∧
    (∀ raw, v.keyResolver h = .ok raw →
      ∃ key, v.keys.get h.GetID = some key ∧ h.GetAlgorithm = key.JWK.Algorithm ∧
        raw = key.RawKey) := by
  refine ⟨?_, ?_, ?_, ?_⟩
  · intro hnone
    simp [Verifier.keyResolver, hnone]
  · intro key hsome hne
    simp [Verifier.keyResolver, hsome, hne]
  · intro key hsome heq
    simp [Verifier.keyResolver, hsome, heq]
  · intro raw hres
    unfold Verifier.keyResolver at hres
    cases hget : v.keys.get h.GetID with
    | none => simp [hget] at hres
    | some key =>
      simp only [hget] at hres
      by_cases halg : h.GetAlgorithm = key.JWK.Algorithm
      · refine ⟨key, rfl, halg, ?_⟩
        simp [halg] at hres
        exact hres.symm
      · simp [halg] at hres

/-- The payload `Create` leaves behind is the stamped payload, whether signing succeeds
or not. -/
theorem Signer.Create_fst (jws : Jws) (now : Time) (s : Signer) (payload : Claims) :
    (s.Create jws now payload).1 = s.stamp now payload := by
  unfold Signer.Create
  dsimp only
  split <;> rfl

/-- What `Create` returns is what `EncodeAndSign` returns for the token it built and the
cached raw key. -/
theorem Signer.Create_snd (jws : Jws) (now : Time) (s : Signer) (payload : Claims) :
    (s.Create jws now payload).2
      = jws.EncodeAndSign (s.token jws now payload) s.keyCache.RawKey := by
  unfold Signer.Create
  dsimp only
  split <;> rename_i h <;> exact h.symm

/-- C3: `Verify` passes a failure of the decode-and-verify step on unchanged; after a
successful decode it answers `ErrInvalidToken` when `Validate` is false or the payload's
issuer is not the expected one, and the decoded token otherwise; so a returned token has
the expected issuer and passed `Validate`. -/
theorem Verify_spec (jws : Jws) (now : Time) (v : Verifier) (rawtoken : String) :
    (∀ err, jws.DecodeAndValidate rawtoken none none v.keyResolver = .error err →
      v.Verify jws now rawtoken = .error err) ∧
    (∀ token, jws.DecodeAndValidate rawtoken none none v.keyResolver = .ok token →
      (jws.Validate now token = false ∨ token.Payload.GetIssuer ≠ v.issuer) →
      v.Verify jws now rawtoken = .error .ErrInvalidToken) ∧
    (∀ token, jws.DecodeAndValidate rawtoken none none v.keyResolver = .ok token →
      jws.Validate now token = true → token.Payload.GetIssuer = v.issuer →
      v.Verify jws now rawtoken = .ok token) ∧
    (∀ token, v.Verify jws now rawtoken = .ok token →
      jws.DecodeAndValidate rawtoken none none v.keyResolver = .ok token ∧
      token.Payload.GetIssuer = v.issuer ∧ jws.Validate now token = true) := by
  refine ⟨?_, ?_, ?_, ?_⟩
  · intro err hdec
    simp [Verifier.Verify, hdec]
  · intro token hdec hbad
    rcases hbad with hval | hiss
    · simp [Verifier.Verify, hdec, hval]
    · simp [Verifier.Verify, hdec, hiss]
  · intro token hdec hval hiss
    simp [Verifier.Verify, hdec, hval, hiss]
  · intro token hver
    unfold Verifier.Verify at hver
    cases hdec : jws.DecodeAndValidate rawtoken none none v.keyResolver with
    | error err => simp [hdec] at hver
    | ok tok =>
      simp only [hdec] at hver
      by_cases hval : jws.Validate now tok = true
      · by_cases hiss : tok.Payload.GetIssuer = v.issuer
        · simp [hval, hiss] at hver
          subst hver
          exact ⟨rfl, hiss, hval⟩
        · simp [hval, hiss] at hver
      · simp [hval] at hver

/-- C4: whatever the payload carried, after `Create` read at time `now` its issuer is the
configured issuer, issued-at and not-before are `now`, and expires-at is `now` plus the
configured duration, so that expires-at minus not-before is the configured duration. -/
theorem Create_stamps (jws : Jws) (now : Time) (s : Signer) (payload : Claims) :
    ((s.Create jws now payload).1).GetIssuer = s.config.Issuer ∧
    ((s.Create jws now payload).1).GetIssuedAt = now ∧
    ((s.Create jws now payload).1).GetNotBefore = now ∧
    ((s.Create jws now payload).1).GetExpireAt = now + s.config.Duration ∧
    ((s.Create jws now payload).1).GetExpireAt - ((s.Create jws now payload).1).GetNotBefore
      = s.config.Duration := by
  rw [Signer.Create_fst]
  refine ⟨rfl, rfl, rfl, rfl, ?_⟩
  show ((now : Int) + s.config.Duration) - now = s.config.Duration
  exact add_sub_cancel_left now s.config.Duration

/-- C5, as the claim states it, fails: for a store that hands out under the name `"a"` a
key whose identifier is `"b"`, `NewSigner` succeeds and the header that `Create` signs
carries the identifier `"a"`, while the cached key's identifier is `"b"`. -/
theorem Create_header_id_counterexample :
    (match NewSigner acceptingKeyOf aliasConfig aliasStore with
      | .ok s => some ((s.Create probeJws 0 samplePayload).2, s.keyCache.JWK.ID)
      | .error _ => none)
      = some (.ok "a", "b") := by
  decide

/-- C5 (amended): for a Signer produced by `NewSigner`, the token that `Create` hands to
`EncodeAndSign` has a header whose key identifier is the configured signing-key
identifier (which is the cached key's identifier when the store returns keys bearing the
identifier asked for), whose algorithm is the cached key's, whose key-set URL is the
configured one and whose type tag is the JWT header type. -/
theorem Create_header (keyOf : Key → Except JoseError RawKey) (config : Config)
    (dt : DataSigner) (jws : Jws) (now : Time) (payload : Claims) (s : Signer)
    (hnew : NewSigner keyOf config dt = .ok s) :
    (s.Create jws now payload).2
      = jws.EncodeAndSign (s.token jws now payload) s.keyCache.RawKey ∧
    (s.token jws now payload).Header.GetID = config.SignKeyID ∧
    ((∀ id k, dt.GetKey id = .ok k → k.ID = id) →
      (s.token jws now payload).Header.GetID = s.keyCache.JWK.ID) ∧
    (s.token jws now payload).Header.GetAlgorithm = s.keyCache.JWK.Algorithm ∧
    (s.token jws now payload).Header.GetJWKSetURL = config.SetURL ∧
    (s.token jws now payload).Header.GetType = jws.JWTHeaderType := by
  unfold NewSigner at hnew
  cases hget : dt.GetKey config.SignKeyID with
  | error err => simp [hget] at hnew
  | ok dbKey =>
    simp only [hget] at hnew
    cases hkey : keyOf dbKey with
    | error err => simp [hkey] at hnew
    | ok rawKey =>
      simp only [hkey] at hnew
      have hs : s = ⟨dt, config, ⟨dbKey, rawKey⟩⟩ := (Except.ok.inj hnew).symm
      subst hs
      refine ⟨Signer.Create_snd _ _ _ _, rfl, ?_, rfl, rfl, rfl⟩
      · intro hfaithful
        exact (hfaithful _ _ hget).symm

/-- Witness for C5 (amended): a store that hands out, for every name, a key bearing that
name; the signed header carries the identifier `"a"`, which is the cached key's. -/
theorem Create_header_witness :
    (echoSigner.token probeJws 5 samplePayload).Header.GetID = "a" ∧
    (echoSigner.token probeJws 5 samplePayload).Header.GetID = echoSigner.keyCache.JWK.ID ∧
    (echoSigner.token probeJws 5 samplePayload).Header.GetAlgorithm = "RS256" :=
  have h := Create_header acceptingKeyOf aliasConfig echoStore probeJws 5 samplePayload
    echoSigner rfl
  ⟨h.2.1, h.2.2.1 (fun _ _ hk => by cases hk; rfl), h.2.2.2.1⟩

/-- C7: `NewSigner` fails with the store's error when the store does not return the key
named by the configured identifier, with the key parser's error when that key does not
parse, and otherwise returns a Signer that caches the fetched key with its parsed
material; `Create` then reads neither the store nor the key parser, and an error it
returns is the error of the encode-and-sign step. -/
theorem NewSigner_spec (keyOf : Key → Except JoseError RawKey) (config : Config)
    (dt : DataSigner) :
    (∀ err, dt.GetKey config.SignKeyID = .error err →
      NewSigner keyOf config dt = .error err) ∧
    (∀ dbKey err, dt.GetKey config.SignKeyID = .ok dbKey → keyOf dbKey = .error err →
      NewSigner keyOf config dt = .error err) ∧
    (∀ dbKey rawKey, dt.GetKey config.SignKeyID = .ok dbKey → keyOf dbKey = .ok rawKey →
      NewSigner keyOf config dt = .ok ⟨dt, config, ⟨dbKey, rawKey⟩⟩) ∧
    (∀ s, NewSigner keyOf config dt = .ok s →
      (∀ jws now payload err, (s.Create jws now payload).2 = .error err →
        jws.EncodeAndSign (s.token jws now payload) s.keyCache.RawKey = .error err) ∧
      (∀ jws now payload (dt' : DataSigner),
        Signer.Create jws now ⟨dt', s.config, s.keyCache⟩ payload
          = s.Create jws now payload)) := by
  refine ⟨?_, ?_, ?_, ?_⟩
  · intro err hget
    simp [NewSigner, hget]
  · intro dbKey err hget hkey
    simp [NewSigner, hget, hkey]
  · intro dbKey rawKey hget hkey
    simp [NewSigner, hget, hkey]
  · intro s _
    refine ⟨?_, ?_⟩
    · intro jws now payload err herr
      rw [Signer.Create_snd] at herr
      exact herr
    · intro jws now payload dt'
      rfl

/-- C8: when a PEM block is found, `ParseRSAFromPEM` returns what the first succeeding
strategy returns on the block's bytes, in the order PKCS#1, PKCS#8, PKIX, certificate
(of which only the public key is returned), after calling no strategy beyond that one;
an error it returns is `ErrParsingFromPEM`, and it returns it exactly when all four
strategies fail. -/
theorem ParseRSAFromPEM_spec (x509 : X509) (pemDecode : Bytes → Option PemBlock × Bytes)
    (key : Bytes) (block : PemBlock) (hblock : (pemDecode key).1 = some block) :
    (∀ k, x509.ParsePKCS1PrivateKey block.Bytes = .ok k →
      ParseRSAFromPEM x509 pemDecode key = ⟨1, .ok k⟩) ∧
    (∀ e1 k, x509.ParsePKCS1PrivateKey block.Bytes = .error e1 →
      x509.ParsePKCS8PrivateKey block.Bytes = .ok k →
      ParseRSAFromPEM x509 pemDecode key = ⟨2, .ok k⟩) ∧
    (∀ e1 e2 k, x509.ParsePKCS1PrivateKey block.Bytes = .error e1 →
      x509.ParsePKCS8PrivateKey block.Bytes = .error e2 →
      x509.ParsePKIXPublicKey block.Bytes = .ok k →
      ParseRSAFromPEM x509 pemDecode key = ⟨3, .ok k⟩) ∧
    (∀ e1 e2 e3 cert, x509.ParsePKCS1PrivateKey block.Bytes = .error e1 →
      x509.ParsePKCS8PrivateKey block.Bytes = .error e2 →
      x509.ParsePKIXPublicKey block.Bytes = .error e3 →
      x509.ParseCertificate block.Bytes = .ok cert →
      ParseRSAFromPEM x509 pemDecode key = ⟨4, .ok cert.PublicKey⟩) ∧
    (∀ err, (ParseRSAFromPEM x509 pemDecode key).result = .error err →
      err = .ErrParsingFromPEM) ∧
    ((ParseRSAFromPEM x509 pemDecode key).result = .error .ErrParsingFromPEM ↔
      (∃ e1, x509.ParsePKCS1PrivateKey block.Bytes = .error e1) ∧
      (∃ e2, x509.ParsePKCS8PrivateKey block.Bytes = .error e2) ∧
      (∃ e3, x509.ParsePKIXPublicKey block.Bytes = .error e3) ∧
      (∃ e4, x509.ParseCertificate block.Bytes = .error e4)) := by
  have hrun : ParseRSAFromPEM x509 pemDecode key
      = ParseRSAFromPEM.loop block.Bytes (rsaParsers x509) 0 := by
    simp [ParseRSAFromPEM, hblock]
  rw [hrun]
  cases h1 : x509.ParsePKCS1PrivateKey block.Bytes <;>
    cases h2 : x509.ParsePKCS8PrivateKey block.Bytes <;>
    cases h3 : x509.ParsePKIXPublicKey block.Bytes <;>
    cases h4 : x509.ParseCertificate block.Bytes <;>
    simp [rsaParsers, ParseRSAFromPEM.loop, h1, h2, h3, h4]
  intro _ _ _ cert _ _ _ hc
  rw [hc]

/-- Witness for C8: a block tagged as a certificate; the first three
strategies fail, four are called, and the certificate's public key comes back. -/
theorem ParseRSAFromPEM_spec_witness :
    (dashPemDecode [45, 5, 7]).1 = some ⟨"KEY", [5, 7]⟩ ∧
    ParseRSAFromPEM tagX509 dashPemDecode [45, 5, 7] = ⟨4, .ok ⟨[5]⟩⟩ :=
  ⟨rfl, (ParseRSAFromPEM_spec tagX509 dashPemDecode [45, 5, 7] ⟨"KEY", [5, 7]⟩ rfl).2.2.2.1
    _ _ _ ⟨[5, 7], ⟨[5]⟩⟩ rfl rfl rfl rfl⟩

/-- C9: when no PEM block is found, `ParseRSAFromPEM` returns no key and the error
`ErrKeyMustBePEMEncoded`, and calls none of the parsing strategies, whatever they are. -/
theorem ParseRSAFromPEM_not_pem (x509 : X509) (pemDecode : Bytes → Option PemBlock × Bytes)
    (key : Bytes) (hnone : (pemDecode key).1 = none) :
    ParseRSAFromPEM x509 pemDecode key = ⟨0, .error .ErrKeyMustBePEMEncoded⟩ := by
  simp [ParseRSAFromPEM, hnone]

/-- Witness for C9: the text `All your base are belong to key`. -/
theorem ParseRSAFromPEM_not_pem_witness :
    (dashPemDecode badKey).1 = none ∧
    ParseRSAFromPEM tagX509 dashPemDecode badKey = ⟨0, .error .ErrKeyMustBePEMEncoded⟩ :=
  ⟨by decide, ParseRSAFromPEM_not_pem tagX509 dashPemDecode badKey (by decide)⟩

/-- Overwriting a buffer keeps its length. -/
theorem fillBuffer_length (buf : Bytes) (src : Nat → Byte) :
    (fillBuffer buf src).length = buf.length := by
  simp [fillBuffer]

/-- Within the allocation limit `make` delivers a zeroed buffer of the length asked for. -/
theorem makeBytes_of_le (maxAlloc : Nat) (n : Int) (h0 : 0 ≤ n) (hle : n ≤ maxAlloc) :
    makeBytes maxAlloc n = some (List.replicate n.toNat 0) := by
  have h : ¬ (n < 0 ∨ (maxAlloc : Int) < n) := by omega
  simp [makeBytes, h]

/-- C10, as the claim states it, fails: `math.MaxInt64` is a size of at least 512 and
the random source delivers, yet with the allocation limit of 64-bit Linux the allocation
of `size/8` bytes panics and `newSymKey` returns no byte sequence. -/
theorem newSymKey_maxint_counterexample :
    (512 ≤ maxInt64 ∧ maxInt64 < 2 ^ 63) ∧
    (countingRand.Read (Int.tdiv maxInt64 8).toNat).toOption.isSome = true ∧
    newSymKey maxAlloc64 countingRand "HS512" maxInt64
      = .panicked "makeslice: len out of range" := by
  refine ⟨by decide, rfl, ?_⟩
  decide

/-- C10 (amended): `newSymKey` fails with `TooSmallKeySize{512, size}` exactly when
`size < 512`, and then reads neither the random source nor the allocator; for
`size >= 512` with `size/8` within the allocation limit it returns, when the source
delivers, the buffer of exactly `size/8` bytes that the source filled (truncating
division, so fewer than `size` bits when `size` is not a multiple of 8), and
`ErrorGeneratingKey` with the source's message when the source fails. -/
theorem newSymKey_spec (maxAlloc : Nat) (rand : RandReader) (alg : String) (size : Int) :
    (newSymKey maxAlloc rand alg size = .returned (.error (.TooSmallKeySize 512 size)) ↔
      size < 512) ∧
    (size < 512 → ∀ (maxAlloc' : Nat) (rand' : RandReader),
      newSymKey maxAlloc' rand' alg size = newSymKey maxAlloc rand alg size) ∧
    (512 ≤ size → Int.tdiv size 8 ≤ maxAlloc →
      ∀ src, rand.Read (Int.tdiv size 8).toNat = .ok src →
      ∃ buf, newSymKey maxAlloc rand alg size = .returned (.ok buf) ∧
        (buf.length : Int) = Int.tdiv size 8 ∧
        (buf.length : Int) = size / 8 ∧ (size % 8 ≠ 0 → 8 * (buf.length : Int) < size) ∧
        buf = (List.range (Int.tdiv size 8).toNat).map src) ∧
    (512 ≤ size → Int.tdiv size 8 ≤ maxAlloc →
      ∀ msg, rand.Read (Int.tdiv size 8).toNat = .error msg →
      newSymKey maxAlloc rand alg size = .returned (.error (.ErrorGeneratingKey msg))) := by
  have hdiv : 0 ≤ size → Int.tdiv size 8 = size / 8 := fun h =>
    Int.tdiv_eq_ediv h (by decide)
  refine ⟨?_, ?_, ?_, ?_⟩
  · constructor
    · intro h
      by_contra hge
      unfold newSymKey at h
      simp only [MinimumOCTKeySize, hge, if_false] at h
      cases hm : makeBytes maxAlloc (Int.tdiv size 8) with
      | none => simp [hm] at h
      | some buf =>
        simp only [hm] at h
        cases hr : rand.Read buf.length with
        | error msg => simp [hr] at h
        | ok src => simp [hr] at h
    · intro h
      simp [newSymKey, MinimumOCTKeySize, h]
  · intro h maxAlloc' rand'
    simp [newSymKey, MinimumOCTKeySize, h]
  · intro h hle src hr
    have hlt : ¬ size < 512 := by omega
    have h0 : 0 ≤ Int.tdiv size 8 := by rw [hdiv (by omega)]; omega
    have hm := makeBytes_of_le maxAlloc (Int.tdiv size 8) h0 hle
    refine ⟨fillBuffer (List.replicate (Int.tdiv size 8).toNat 0) src, ?_, ?_, ?_, ?_, ?_⟩
    · simp [newSymKey, MinimumOCTKeySize, hlt, hm, hr]
    · rw [fillBuffer_length, List.length_replicate]
      omega
    · rw [fillBuffer_length, List.length_replicate, hdiv (by omega)]
      omega
    · intro hmod
      rw [fillBuffer_length, List.length_replicate, hdiv (by omega)]
      omega
    · simp [fillBuffer]
  · intro h hle msg hr
    have hlt : ¬ size < 512 := by omega
    have h0 : 0 ≤ Int.tdiv size 8 := by rw [hdiv (by omega)]; omega
    have hm := makeBytes_of_le maxAlloc (Int.tdiv size 8) h0 hle
    simp [newSymKey, MinimumOCTKeySize, hlt, hm, hr]

/-- Witness for C10 (amended): with the allocation limit of 64-bit Linux, 520 bits give
the 65 bytes the source delivers, 515 bits give 64 bytes (512 bits), 511 bits are
refused, and an exhausted source gives `ErrorGeneratingKey`. -/
theorem newSymKey_spec_witness :
    newSymKey maxAlloc64 countingRand "HS512" 520
      = .returned (.ok ((List.range 65).map (fun i => Fin.ofNat i))) ∧
    newSymKey maxAlloc64 countingRand "HS512" 515
      = .returned (.ok ((List.range 64).map (fun i => Fin.ofNat i))) ∧
    newSymKey maxAlloc64 countingRand "HS512" 511
      = .returned (.error (.TooSmallKeySize 512 511)) ∧
    newSymKey maxAlloc64 failingRand "HS512" 520
      = .returned (.error (.ErrorGeneratingKey "unexpected EOF")) :=
  ⟨by decide, by decide,
    (newSymKey_spec maxAlloc64 countingRand "HS512" 511).1.2 (by decide),
    (newSymKey_spec maxAlloc64 failingRand "HS512" 520).2.2.2 (by decide) (by decide) _ rfl⟩

/-! ### The key cache built by `NewVerifier` -/

/-- Looking up after removing the entries of `k`. -/
theorem KeyMap.get_filter (m : KeyMap) (k id : String) :
    KeyMap.get (m.filter (fun e => e.1 != k)) id = if id = k then none else KeyMap.get m id := by
  induction m with
  | nil => simp [KeyMap.get]
  | cons e rest ih =>
    by_cases hek : e.1 = k
    · have hf : (e :: rest).filter (fun e => e.1 != k) = rest.filter (fun e => e.1 != k) :=
        List.filter_cons_of_neg (by simp [hek])
      rw [hf, ih]
      by_cases hid : id = k
      · simp [hid]
      · have : ¬ e.1 = id := fun h => hid (h ▸ hek)
        simp [hid, KeyMap.get, this]
    · have hf : (e :: rest).filter (fun e => e.1 != k)
          = e :: rest.filter (fun e => e.1 != k) :=
        List.filter_cons_of_pos (by simp [hek])
      rw [hf]
      by_cases hei : e.1 = id
      · have : ¬ id = k := fun h => hek (hei ▸ h)
        simp [KeyMap.get, hei, this]
      · simp only [KeyMap.get, hei, if_false]
        exact ih

/-- Looking up after `m[k] = v`. -/
theorem KeyMap.get_set (m : KeyMap) (k id : String) (v : Cache) :
    KeyMap.get (m.set k v) id = if k = id then some v else KeyMap.get m id := by
  by_cases h : k = id
  · simp [KeyMap.set, KeyMap.get, h]
  · have h' : ¬ id = k := fun e => h e.symm
    simp only [KeyMap.set, KeyMap.get, h, if_false]
    rw [KeyMap.get_filter]
    simp [h']

/-- An identifier has an entry exactly when looking it up succeeds. -/
theorem KeyMap.mem_ids_iff (m : KeyMap) (id : String) :
    id ∈ m.ids ↔ ∃ c, KeyMap.get m id = some c := by
  induction m with
  | nil => simp [KeyMap.ids, KeyMap.get]
  | cons e rest ih =>
    by_cases hei : e.1 = id
    · simp [KeyMap.ids, KeyMap.get, hei]
    · have hne : ¬ id = e.1 := fun h => hei h.symm
      have ih' : id ∈ List.map (fun e => e.1) rest ↔ ∃ c, KeyMap.get rest id = some c := ih
      simp only [KeyMap.ids, List.map_cons, List.mem_cons, hne, false_or, KeyMap.get, hei,
        if_false]
      exact ih'

/-- The assignment `m[k] = v` keeps the map free of duplicate identifiers. -/
theorem KeyMap.nodup_set (m : KeyMap) (k : String) (v : Cache)
    (h : (KeyMap.ids m).Nodup) : (KeyMap.ids (m.set k v)).Nodup := by
  unfold KeyMap.set KeyMap.ids
  rw [List.map_cons, List.nodup_cons]
  constructor
  · intro hmem
    rcases List.mem_map.mp hmem with ⟨e, he, hek⟩
    have := (List.mem_filter.mp he).2
    simp at this
    exact this hek
  · exact (List.Nodup.sublist (List.Sublist.map _ (List.filter_sublist m)) h)

/-- The loop of `NewVerifier` on keys that all parse: it ends with a Verifier that has
the issuer it started with, an entry for each identifier that had one or occurs in the
list, and for each new entry a key of the list with its parsed material. -/
theorem NewVerifier.loop_ok (keyOf : Key → Except JoseError RawKey) (ks : List Key) :
    ∀ acc : Verifier, (∀ k ∈ ks, ∃ raw, keyOf k = .ok raw) →
      ∃ v, NewVerifier.loop keyOf ks acc = .ok v ∧ v.issuer = acc.issuer ∧
        (∀ id, (∃ c, KeyMap.get v.keys id = some c) ↔
          ((∃ c, KeyMap.get acc.keys id = some c) ∨ ∃ k ∈ ks, k.ID = id)) ∧
        (∀ id c, KeyMap.get v.keys id = some c →
          KeyMap.get acc.keys id = some c ∨
          (c.JWK ∈ ks ∧ c.JWK.ID = id ∧ keyOf c.JWK = .ok c.RawKey)) ∧
        ((KeyMap.ids acc.keys).Nodup → (KeyMap.ids v.keys).Nodup) := by
  induction ks with
  | nil =>
    intro acc _
    exact ⟨acc, rfl, rfl, by simp, fun _ _ h => Or.inl h, id⟩
  | cons k rest ih =>
    intro acc hall
    obtain ⟨raw, hraw⟩ := hall k (List.mem_cons_self _ _)
    obtain ⟨v, hv, hiss, hdom, hval, hnd⟩ :=
      ih { acc with keys := acc.keys.set k.ID ⟨k, raw⟩ }
        (fun k' hk' => hall k' (List.mem_cons_of_mem _ hk'))
    refine ⟨v, ?_, hiss, ?_, ?_, ?_⟩
    · simp only [NewVerifier.loop, hraw]
      exact hv
    · intro id
      rw [hdom id]
      simp only [KeyMap.get_set]
      by_cases hid : k.ID = id
      · simp [hid]
      · simp [hid]
    · intro id c hc
      rcases hval id c hc with h | ⟨h1, h2, h3⟩
      · simp only [KeyMap.get_set] at h
        by_cases hid : k.ID = id
        · simp only [hid, if_true, Option.some.injEq] at h
          subst h
          exact Or.inr ⟨List.mem_cons_self _ _, hid, hraw⟩
        · simp only [hid, if_false] at h
          exact Or.inl h
      · exact Or.inr ⟨List.mem_cons_of_mem _ h1, h2, h3⟩
    · intro hacc
      exact hnd (KeyMap.nodup_set _ _ _ hacc)

/-- The loop of `NewVerifier` on a list with a key that does not parse: it ends with the
parse error of a key of the list. -/
theorem NewVerifier.loop_error (keyOf : Key → Except JoseError RawKey) (ks : List Key) :
    ∀ acc : Verifier, (∃ k ∈ ks, ∃ e, keyOf k = .error e) →
      ∃ e, NewVerifier.loop keyOf ks acc = .error e ∧ ∃ k ∈ ks, keyOf k = .error e := by
  induction ks with
  | nil =>
    intro acc h
    obtain ⟨k, hk, _⟩ := h
    cases hk
  | cons k rest ih =>
    intro acc h
    cases hk : keyOf k with
    | error e =>
      exact ⟨e, by simp [NewVerifier.loop, hk], k, List.mem_cons_self _ _, hk⟩
    | ok raw =>
      obtain ⟨k', hk', e', he'⟩ := h
      have hrest : ∃ k ∈ rest, ∃ e, keyOf k = .error e := by
        rcases List.mem_cons.mp hk' with heq | hmem
        · subst heq
          rw [hk] at he'
          cases he'
        · exact ⟨k', hmem, e', he'⟩
      obtain ⟨e, he, k2, hk2, hk2e⟩ :=
        ih { acc with keys := acc.keys.set k.ID ⟨k, raw⟩ } hrest
      refine ⟨e, ?_, k2, List.mem_cons_of_mem _ hk2, hk2e⟩
      simp only [NewVerifier.loop, hk]
      exact he

/-- C6: `NewVerifier` is all-or-nothing.  It returns an error and no Verifier when the
key-set provider fails, and when a key of the fetched set does not parse; otherwise it
returns a Verifier with the given issuer whose cache has exactly the identifiers of the
fetched keys, one entry for each, every entry holding a key of the set that bears the
identifier together with that key's parsed material. -/
theorem NewVerifier_spec (keyOf : Key → Except JoseError RawKey)
    (getCerts : Except SetError KeySet) (issuer : String) :
    (∀ jerr, getCerts = .error jerr →
      NewVerifier keyOf getCerts issuer
        = .error (.errorsNew (jerr.Typ ++ ": " ++ jerr.Message))) ∧
    (∀ jwkset, getCerts = .ok jwkset → (∃ k ∈ jwkset.Keys, ∃ e, keyOf k = .error e) →
      ∃ e, NewVerifier keyOf getCerts issuer = .error e ∧
        ∃ k ∈ jwkset.Keys, keyOf k = .error e) ∧
    (∀ jwkset, getCerts = .ok jwkset → (∀ k ∈ jwkset.Keys, ∃ raw, keyOf k = .ok raw) →
      ∃ v, NewVerifier keyOf getCerts issuer = .ok v ∧ v.issuer = issuer ∧
        (∀ id, id ∈ KeyMap.ids v.keys ↔ ∃ k ∈ jwkset.Keys, k.ID = id) ∧
        (KeyMap.ids v.keys).Nodup ∧
        (∀ id, id ∈ KeyMap.ids v.keys →
          ∃ c, KeyMap.get v.keys id = some c ∧ c.JWK ∈ jwkset.Keys ∧ c.JWK.ID = id ∧
            keyOf c.JWK = .ok c.RawKey)) := by
  refine ⟨?_, ?_, ?_⟩
  · intro jerr hget
    simp [NewVerifier, hget]
  · intro jwkset hget hbad
    obtain ⟨e, he, hk⟩ := NewVerifier.loop_error keyOf jwkset.Keys ⟨issuer, []⟩ hbad
    exact ⟨e, by simp only [NewVerifier, hget]; exact he, hk⟩
  · intro jwkset hget hall
    obtain ⟨v, hv, hiss, hdom, hval, hnd⟩ :=
      NewVerifier.loop_ok keyOf jwkset.Keys ⟨issuer, []⟩ hall
    have hdom' : ∀ id, id ∈ KeyMap.ids v.keys ↔ ∃ k ∈ jwkset.Keys, k.ID = id := by
      intro id
      rw [KeyMap.mem_ids_iff, hdom id]
      simp [KeyMap.get]
    refine ⟨v, by simp only [NewVerifier, hget]; exact hv, hiss, hdom', ?_, ?_⟩
    · exact hnd (by simp [KeyMap.ids])
    · intro id hid
      obtain ⟨c, hc⟩ := (KeyMap.mem_ids_iff v.keys id).mp hid
      rcases hval id c hc with h | h
      · simp [KeyMap.get] at h
      · exact ⟨c, hc, h⟩

/-! ### Round trip through the codec of section 4.4 -/

/-- Splitting a text that starts with a character other than the dot. -/
theorem splitOnDot_cons_ne (c : Char) (cs : List Char) (hc : ¬ c = '.') :
    splitOnDot (c :: cs)
      = match splitOnDot cs with
        | [] => [[c]]
        | seg :: segs => (c :: seg) :: segs := by
  simp [splitOnDot, hc]

/-- A segment without dots, followed by a dot, is split off whole. -/
theorem splitOnDot_append_dot (a rest : List Char) (ha : '.' ∉ a) :
    splitOnDot (a ++ '.' :: rest) = a :: splitOnDot rest := by
  induction a with
  | nil => simp [splitOnDot]
  | cons c cs ih =>
    have hc : ¬ c = '.' := fun h => ha (h ▸ List.mem_cons_self _ _)
    have hcs : '.' ∉ cs := fun h => ha (List.mem_cons_of_mem _ h)
    rw [List.cons_append, splitOnDot_cons_ne _ _ hc, ih hcs]

/-- A text without dots is one segment. -/
theorem splitOnDot_no_dot (a : List Char) (ha : '.' ∉ a) : splitOnDot a = [a] := by
  induction a with
  | nil => rfl
  | cons c cs ih =>
    have hc : ¬ c = '.' := fun h => ha (h ▸ List.mem_cons_self _ _)
    have hcs : '.' ∉ cs := fun h => ha (List.mem_cons_of_mem _ h)
    rw [splitOnDot_cons_ne _ _ hc, ih hcs]

/-- Three dot-free segments joined by dots are split into those three. -/
theorem splitOnDot_three (a b c : List Char) (ha : '.' ∉ a) (hb : '.' ∉ b) (hc : '.' ∉ c) :
    splitOnDot ((a ++ '.' :: b) ++ '.' :: c) = [a, b, c] := by
  have h : (a ++ '.' :: b) ++ '.' :: c = a ++ '.' :: (b ++ '.' :: c) := by simp
  rw [h, splitOnDot_append_dot a _ ha, splitOnDot_append_dot b _ hb, splitOnDot_no_dot c hc]

/-- In a sound environment, a token signed with a key that fits the header's algorithm
is decoded and verified to the same header and claims, when the resolver answers with
that key. -/
theorem specCodec_roundtrip (env : CodecEnv) (hSound : env.Sound) (h : Header) (c : Claims)
    (s0 : Bytes) (raw : RawKey) (alg : Algorithm)
    (hReg : env.resolve h.Algorithm = some alg) (hFits : alg.Fits raw)
    (resolver : KeyResolver) (hRes : resolver h = .ok raw) (a : Option Header)
    (b : Option Claims) :
    ∃ out sig, specEncodeAndSign env ⟨h, c, s0⟩ raw = .ok out ∧
      specDecodeAndValidate env out a b resolver = .ok ⟨h, c, sig⟩ := by
  obtain ⟨hH, hC, hB, hDot⟩ := hSound
  obtain ⟨sig, hSign, hVerify⟩ :=
    hFits (env.base64Encode (env.marshalHeader h) ++ '.' :: env.base64Encode (env.marshalClaims c))
  refine ⟨String.mk ((env.base64Encode (env.marshalHeader h) ++ '.' ::
    env.base64Encode (env.marshalClaims c)) ++ '.' :: env.base64Encode sig), sig, ?_, ?_⟩
  · simp only [specEncodeAndSign, hReg, hSign]
  · simp only [specDecodeAndValidate]
    rw [splitOnDot_three _ _ _ (hDot _) (hDot _) (hDot _)]
    simp [hB, hH, hC, hRes, hReg, hVerify]

/-- The environment `unaryEnv` is sound. -/
theorem unaryEnv_sound : unaryEnv.Sound := by
  refine ⟨?_, ?_, ?_, ?_⟩
  · intro h
    simp only [unaryEnv, List.length_replicate, Encodable.encodek]
  · intro c
    simp only [unaryEnv, List.length_replicate, Encodable.encodek]
  · intro bs
    simp only [unaryEnv, List.length_replicate, Encodable.encodek]
  · intro bs hmem
    simp only [unaryEnv] at hmem
    have h := List.eq_of_mem_replicate hmem
    exact absurd h (by decide)

/-- The algorithm `tagAlgorithm` fits every key. -/
theorem tagAlgorithm_fits (raw : RawKey) : tagAlgorithm.Fits raw := by
  intro m
  exact ⟨tagOf m raw, rfl, by simp [tagAlgorithm]⟩

/-- C1: with the codec and the validator of sections 4.4 and 4.5 over sound primitives,
for a registered algorithm and a key that fits it: a Signer built over a store that
holds the key under the configured identifier, and a Verifier built over the key set
holding only that key and expecting the Signer's issuer, are such that for every payload
`Create` succeeds and `Verify`, run on its output at a time within the token's lifetime,
succeeds with a token whose issuer is the configured one and whose audience and scopes
are the payload's. -/
theorem Verify_Create_roundtrip (env : CodecEnv) (hSound : env.Sound)
    (keyOf : Key → Except JoseError RawKey) (k : Key) (raw : RawKey)
    (hKey : keyOf k = .ok raw) (alg : Algorithm)
    (hReg : env.resolve k.Algorithm = some alg) (hFits : alg.Fits raw)
    (config : Config) (dt : DataSigner) (hStore : dt.GetKey config.SignKeyID = .ok k)
    (hId : config.SignKeyID = k.ID) (hDur : 0 < config.Duration) (p : Claims)
    (now now' : Time) (hLife : now ≤ now' ∧ now' ≤ now + config.Duration) :
    ∃ signer verifier out token,
      NewSigner keyOf config dt = .ok signer ∧
      NewVerifier keyOf (.ok ⟨[k]⟩) config.Issuer = .ok verifier ∧
      (signer.Create (specJws env) now p).2 = .ok out ∧
      verifier.Verify (specJws env) now' out = .ok token ∧
      token.Payload.GetIssuer = config.Issuer ∧
      token.Payload.GetAudience = p.GetAudience ∧
      token.Payload.GetScopes = p.GetScopes := by
  have hRes : Verifier.keyResolver ⟨config.Issuer, [(k.ID, ⟨k, raw⟩)]⟩
      (Signer.header (specJws env) ⟨dt, config, ⟨k, raw⟩⟩) = .ok raw := by
    simp [Verifier.keyResolver, KeyMap.get, Header.GetID, Header.GetAlgorithm, Signer.header,
      hId]
  obtain ⟨out, sig, hEnc, hDec⟩ :=
    specCodec_roundtrip env hSound (Signer.header (specJws env) ⟨dt, config, ⟨k, raw⟩⟩)
      (Signer.stamp ⟨dt, config, ⟨k, raw⟩⟩ now p) [] raw alg hReg hFits _ hRes none none
  refine ⟨⟨dt, config, ⟨k, raw⟩⟩, ⟨config.Issuer, [(k.ID, ⟨k, raw⟩)]⟩, out,
    ⟨Signer.header (specJws env) ⟨dt, config, ⟨k, raw⟩⟩,
      Signer.stamp ⟨dt, config, ⟨k, raw⟩⟩ now p, sig⟩, ?_, ?_, ?_, ?_, rfl, rfl, rfl⟩
  · simp [NewSigner, hStore, hKey]
  · simp [NewVerifier, NewVerifier.loop, hKey, KeyMap.set]
  · rw [Signer.Create_snd]
    exact hEnc
  · have hExp : ¬ now' > now + config.Duration := not_lt.mpr hLife.2
    have hNbf : ¬ now' < now := not_lt.mpr hLife.1
    have hDec' : (specJws env).DecodeAndValidate out none none
        (Verifier.keyResolver ⟨config.Issuer, [(k.ID, ⟨k, raw⟩)]⟩)
        = .ok ⟨_, Signer.stamp ⟨dt, config, ⟨k, raw⟩⟩ now p, sig⟩ := hDec
    have hVal : (specJws env).Validate now'
        ⟨Signer.header (specJws env) ⟨dt, config, ⟨k, raw⟩⟩,
          Signer.stamp ⟨dt, config, ⟨k, raw⟩⟩ now p, sig⟩ = true := by
      show specValidate now' _ = true
      have e1 : (Signer.stamp ⟨dt, config, ⟨k, raw⟩⟩ now p).GetExpireAt
          = now + config.Duration := rfl
      have e2 : (Signer.stamp ⟨dt, config, ⟨k, raw⟩⟩ now p).GetNotBefore = now := rfl
      simp only [specValidate, e1, e2, hExp, hNbf, decide_False, Bool.not_false,
        Bool.and_self]
    have hIss : (Signer.stamp ⟨dt, config, ⟨k, raw⟩⟩ now p).GetIssuer = config.Issuer := rfl
    simp only [Verifier.Verify, hDec', hVal, hIss]
    simp

/-- Witness for C1: the key `sampleKey`, signed at time 100 and verified four
seconds later within a lifetime of ten seconds. -/
theorem Verify_Create_roundtrip_witness :
    ∃ signer verifier out token,
      NewSigner acceptingKeyOf sampleConfig sampleStore = .ok signer ∧
      NewVerifier acceptingKeyOf (.ok ⟨[sampleKey]⟩) sampleConfig.Issuer = .ok verifier ∧
      (signer.Create (specJws unaryEnv) 100 samplePayload).2 = .ok out ∧
      verifier.Verify (specJws unaryEnv) 4000000100 out = .ok token ∧
      token.Payload.GetIssuer = sampleConfig.Issuer ∧
      token.Payload.GetAudience = samplePayload.GetAudience ∧
      token.Payload.GetScopes = samplePayload.GetScopes :=
  Verify_Create_roundtrip unaryEnv unaryEnv_sound acceptingKeyOf sampleKey ⟨[7, 7, 7]⟩ rfl
    tagAlgorithm rfl (tagAlgorithm_fits _) sampleConfig sampleStore rfl rfl (by decide)
    samplePayload 100 4000000100 (by decide)

/-! ### Scope checks -/

/-- A Go slice has length 0 exactly when it is `nil` or empty. -/
theorem GoStrings.len_eq_zero_iff (g : GoStrings) : g.len = 0 ↔ g = none ∨ g = some [] := by
  cases g with
  | none => simp [GoStrings.len]
  | some l => cases l <;> simp [GoStrings.len]

/-- The test `s != nil && len(s) > 0` asks for a positive length. -/
theorem GoStrings.required_eq (g : GoStrings) :
    (g.isSome && decide (g.len > 0)) = decide (g.len > 0) := by
  cases g with
  | none => simp [GoStrings.len]
  | some l => simp

/-- The test `s == nil || len(s) == 0` asks for length 0. -/
theorem GoStrings.absent_eq (g : GoStrings) :
    (g.isNone || decide (g.len = 0)) = decide (g.len = 0) := by
  cases g with
  | none => simp [GoStrings.len]
  | some l => simp

/-- The result of `VerifyScopes` in terms of lengths and of `ExistsAny`. -/
theorem Verifier.VerifyScopes_eq_true_iff (existsAny : ExistsAnyFn) (v : Verifier)
    (claims : ClientUserScopes) (client user : GoStrings) :
    v.VerifyScopes existsAny claims client user = true ↔
      (client.len = 0 ∨ (claims.GetScopes.len ≠ 0 ∧
        existsAny claims.GetScopes.elems client.elems false = true)) ∧
      (user.len = 0 ∨ (claims.GetUserScopes.len ≠ 0 ∧
        existsAny claims.GetUserScopes.elems user.elems false = true)) := by
  unfold Verifier.VerifyScopes
  simp only [GoStrings.required_eq, GoStrings.absent_eq]
  by_cases hc : client.len = 0 <;> by_cases hu : user.len = 0 <;>
    by_cases hs : claims.GetScopes.len = 0 <;>
    by_cases hus : claims.GetUserScopes.len = 0 <;>
    cases hes : existsAny claims.GetScopes.elems client.elems false <;>
    cases heu : existsAny claims.GetUserScopes.elems user.elems false <;>
    simp [hc, hu, hs, hus, hes, heu, Nat.pos_iff_ne_zero]

/-- C11: when `ExistsAny` with the flag `false` tells whether the two lists share an
entry, `VerifyScopes` returns true exactly when (client is nil or empty, or the claims'
scopes are non-empty and share an entry with client) and (user is nil or empty, or the
claims' user scopes are non-empty and share an entry with user); so it is true for nil
client and nil user, false for scopes `owner`, `vehicle` against client `fleet`, true
against client `vehicle` with nil user, and false when a non-empty required list meets a
nil or empty list of the claims. -/
theorem VerifyScopes_spec (existsAny : ExistsAnyFn)
    (hAny : ∀ s str, existsAny s str false = true ↔ ∃ x, x ∈ s ∧ x ∈ str)
    (v : Verifier) (claims : ClientUserScopes) (client user : GoStrings) :
    (v.VerifyScopes existsAny claims client user = true ↔
      ((client = none ∨ client = some []) ∨
        (claims.GetScopes ≠ none ∧ claims.GetScopes ≠ some [] ∧
          ∃ x, x ∈ claims.GetScopes.elems ∧ x ∈ client.elems)) ∧
      ((user = none ∨ user = some []) ∨
        (claims.GetUserScopes ≠ none ∧ claims.GetUserScopes ≠ some [] ∧
          ∃ x, x ∈ claims.GetUserScopes.elems ∧ x ∈ user.elems))) ∧
    v.VerifyScopes existsAny claims none none = true ∧
    (∀ us, v.VerifyScopes existsAny ⟨some ["owner", "vehicle"], us⟩ (some ["fleet"]) user
      = false) ∧
    (∀ us, v.VerifyScopes existsAny ⟨some ["owner", "vehicle"], us⟩ (some ["vehicle"]) none
      = true) ∧
    (client ≠ none → client ≠ some [] →
      (claims.GetScopes = none ∨ claims.GetScopes = some []) →
      v.VerifyScopes existsAny claims client user = false) ∧
    (user ≠ none → user ≠ some [] →
      (claims.GetUserScopes = none ∨ claims.GetUserScopes = some []) →
      v.VerifyScopes existsAny claims client user = false) := by
  have hne : ∀ g : GoStrings, g.len ≠ 0 ↔ g ≠ none ∧ g ≠ some [] := by
    intro g
    rw [Ne, GoStrings.len_eq_zero_iff]
    exact not_or
  have hfalse : ∀ (c : ClientUserScopes) (cl us : GoStrings),
      ¬ (v.VerifyScopes existsAny c cl us = true) → v.VerifyScopes existsAny c cl us = false :=
    fun _ _ _ h => by simpa using h
  refine ⟨?_, ?_, ?_, ?_, ?_, ?_⟩
  · rw [Verifier.VerifyScopes_eq_true_iff, hAny, hAny, hne, hne,
      GoStrings.len_eq_zero_iff, GoStrings.len_eq_zero_iff]
    simp only [and_assoc]
  · rw [Verifier.VerifyScopes_eq_true_iff]
    exact ⟨Or.inl rfl, Or.inl rfl⟩
  · intro us
    apply hfalse
    rw [Verifier.VerifyScopes_eq_true_iff, hAny]
    simp [GoStrings.len, GoStrings.elems]
  · intro us
    rw [Verifier.VerifyScopes_eq_true_iff, hAny]
    simp [GoStrings.len, GoStrings.elems]
  · intro h1 h2 hs
    apply hfalse
    rw [Verifier.VerifyScopes_eq_true_iff]
    have hc : client.len ≠ 0 := (hne client).mpr ⟨h1, h2⟩
    have hs' : claims.GetScopes.len = 0 := (GoStrings.len_eq_zero_iff _).mpr hs
    simp [hc, hs']
  · intro h1 h2 hs
    apply hfalse
    rw [Verifier.VerifyScopes_eq_true_iff]
    have hu : user.len ≠ 0 := (hne user).mpr ⟨h1, h2⟩
    have hs' : claims.GetUserScopes.len = 0 := (GoStrings.len_eq_zero_iff _).mpr hs
    simp [hu, hs']

/-- The comparison of `sliceExistsAny` with the flag `false` tells whether the two lists
share an entry. -/
theorem sliceExistsAny_iff (s str : List String) :
    sliceExistsAny s str false = true ↔ ∃ x, x ∈ s ∧ x ∈ str := by
  simp only [sliceExistsAny, List.any_eq_true, Bool.false_eq_true, if_false,
    decide_eq_true_eq]
  constructor
  · rintro ⟨x, hx, y, hy, hxy⟩
    exact ⟨y, hy, hxy ▸ hx⟩
  · rintro ⟨x, hxs, hxstr⟩
    exact ⟨x, hxstr, x, hxs, rfl⟩

/-- Witness for C11: the scopes `owner`, `vehicle` against the client lists `fleet` and
`vehicle`, and against no required list. -/
theorem VerifyScopes_spec_witness :
    sampleVerifier.VerifyScopes sliceExistsAny ownerVehicle (some ["fleet"]) none = false ∧
    sampleVerifier.VerifyScopes sliceExistsAny ownerVehicle (some ["vehicle"]) none = true ∧
    sampleVerifier.VerifyScopes sliceExistsAny ownerVehicle none none = true ∧
    sampleVerifier.VerifyScopes sliceExistsAny ownerVehicle none (some ["admin"]) = false :=
  have h := VerifyScopes_spec sliceExistsAny sliceExistsAny_iff sampleVerifier ownerVehicle
    none (some ["admin"])
  ⟨by decide, (VerifyScopes_spec sliceExistsAny sliceExistsAny_iff sampleVerifier
      ownerVehicle none none).2.2.2.1 none, h.2.1,
    h.2.2.2.2.2 (by decide) (by decide) (Or.inl rfl)⟩

/-! ### The hot path leaves the services as they are -/

/-- The step `VerifyStep` returns what `Verify` returns, and the receiver it was given. -/
theorem Verifier.VerifyStep_eq (jws : Jws) (now : Time) (v : Verifier) (rawtoken : String) :
    v.VerifyStep jws now rawtoken = (v, v.Verify jws now rawtoken) := by
  unfold Verifier.VerifyStep Verifier.Verify
  split
  · rfl
  · split <;> rfl

/-- The step `CreateStep` returns what `Create` returns, leaves the payload that `Create`
leaves, and the receiver it was given. -/
theorem Signer.CreateStep_eq (jws : Jws) (now : Time) (s : Signer) (payload : Claims) :
    Signer.CreateStep jws now ⟨s, payload⟩
      = (⟨s, (s.Create jws now payload).1⟩, (s.Create jws now payload).2) := by
  rw [Signer.Create_fst, Signer.Create_snd]
  unfold Signer.CreateStep
  dsimp only
  split <;> rename_i h
  · have h' : jws.EncodeAndSign (s.token jws now payload) s.keyCache.RawKey = _ := h
    rw [h']
    rfl
  · have h' : jws.EncodeAndSign (s.token jws now payload) s.keyCache.RawKey = _ := h
    rw [h']
    rfl

/-- C12: neither hot-path operation writes its service.  After `Verify`, whatever it
returns, the Verifier's expected issuer and key cache are what they were; after `Create`
the Signer's store, configuration and cached key are what they were, and of the payload
only issuer, expires-at, not-before and issued-at are written, audience, subject, scopes
and user object being left as supplied. -/
theorem hot_path_frame (jws : Jws) (now : Time) (v : Verifier) (rawtoken : String)
    (s : Signer) (payload : Claims) :
    (v.VerifyStep jws now rawtoken).1 = v ∧
    (v.VerifyStep jws now rawtoken).1.issuer = v.issuer ∧
    (v.VerifyStep jws now rawtoken).1.keys = v.keys ∧
    (v.VerifyStep jws now rawtoken).2 = v.Verify jws now rawtoken ∧
    (Signer.CreateStep jws now ⟨s, payload⟩).1.signer = s ∧
    (Signer.CreateStep jws now ⟨s, payload⟩).1.signer.config = s.config ∧
    (Signer.CreateStep jws now ⟨s, payload⟩).1.signer.keyCache = s.keyCache ∧
    (Signer.CreateStep jws now ⟨s, payload⟩).1.payload
      = { payload with
          Issuer := s.config.Issuer, ExpireAt := now + s.config.Duration,
          NotBefore := now, IssuedAt := now } ∧
    (Signer.CreateStep jws now ⟨s, payload⟩).1.payload.GetAudience = payload.GetAudience ∧
    (Signer.CreateStep jws now ⟨s, payload⟩).1.payload.GetSubject = payload.GetSubject ∧
    (Signer.CreateStep jws now ⟨s, payload⟩).1.payload.GetScopes = payload.GetScopes ∧
    (Signer.CreateStep jws now ⟨s, payload⟩).2 = (s.Create jws now payload).2 := by
  rw [Verifier.VerifyStep_eq, Signer.CreateStep_eq, Signer.Create_fst]
  exact ⟨rfl, rfl, rfl, rfl, rfl, rfl, rfl, rfl, rfl, rfl, rfl, rfl⟩

/-- Witness for C12: a token the probe codec rejects leaves `sampleVerifier` as it is,
and `Create` on `echoSigner` leaves audience and scopes of `samplePayload` as they are. -/
theorem hot_path_frame_witness :
    (sampleVerifier.VerifyStep probeJws 5 "a.b.c").1 = sampleVerifier ∧
    (sampleVerifier.VerifyStep probeJws 5 "a.b.c").2 = .error .MalformedToken ∧
    (Signer.CreateStep probeJws 5 ⟨echoSigner, samplePayload⟩).1.signer.config = aliasConfig ∧
    (Signer.CreateStep probeJws 5 ⟨echoSigner, samplePayload⟩).1.payload.GetAudience
      = "testing" ∧
    (Signer.CreateStep probeJws 5 ⟨echoSigner, samplePayload⟩).1.payload.GetIssuer
      = "auth.example.com" :=
  have h := hot_path_frame probeJws 5 sampleVerifier "a.b.c" echoSigner samplePayload
  ⟨h.1, by decide, h.2.2.2.2.2.1, h.2.2.2.2.2.2.2.2.1, by decide⟩

end Jose
